import Mathlib

/-!
Verification of the distribution-reconciliation and fallback-composition core
of the question-paper generator (`app/routes.py`, `app/models.py`).

The Python code is shallowly embedded: dictionaries become structures with
optional fields (a `none` models a missing key or a `None` value where the two
behave identically at every use site), the relational question bank becomes a
list of denormalised rows, and the randomised `ORDER BY rand()` becomes an
explicit reordering function supplied as an input.
-/

namespace QPGen

/-- Python `str.strip()` on the character list: drop ASCII whitespace from
both ends. (Python also strips a few rarer Unicode space characters; none of
the text this system manipulates is affected.) -/
def pyStripL (l : List Char) : List Char :=
  ((l.dropWhile Char.isWhitespace).reverse.dropWhile Char.isWhitespace).reverse

/-- Python `str.strip()`. -/
def pyStrip (s : String) : String := String.mk (pyStripL s.toList)

/-- Python `str.lower()` (ASCII case folding; the labels and keys this code
lowercases are ASCII). -/
def pyLower (s : String) : String := String.mk (s.toList.map Char.toLower)

/-- Python `str.strip()` composed with `str.lower()`; this is the text key used
by both duplicate-detection passes in `generate_paper`
(`hash(q.get("question", "").strip().lower())` and
`q.question_text.strip().lower()`). -/
def normKey (s : String) : String :=
  pyLower (pyStrip s)

/-- The synonym chain of `_normalize_qtype` from `app/routes.py`, applied to
the already-trimmed label: maps each synonym set to its canonical
representative; unknown labels pass through unchanged. -/
def normalizeTrimmed (l : String) : String :=
  if l = "MCQ" ∨ l = "Multiple Choice" then "MCQ"
  else if l = "Fill in the Blanks" ∨ l = "Fill" then "Fill in the Blanks"
  else if l = "Short Answer" ∨ l = "Short" then "Short Answer"
  else if l = "Long Answer" ∨ l = "Long" then "Long Answer"
  else if l = "Matching" ∨ l = "Match" ∨ l = "Match the Following" then "Matching"
  else if l = "Case Study" ∨ l = "Case" then "Case Study"
  else l

/-- Embedding of `_normalize_qtype`: `label = (label or "").strip()` followed
by the synonym chain. -/
def normalizeQtype (label : String) : String :=
  normalizeTrimmed (pyStrip label)

/-- One entry of the submitted `questionDistribution`: a (possibly
non-canonical) type label together with `int(info['count'])` and
`int(info['marks'])`. The Python dict preserves insertion order, so the
distribution is a list. -/
structure QDistEntry where
  label : String
  count : Int
  marks : Int
  deriving Repr, DecidableEq

/-- A question dictionary as it flows through `generate_paper`. Fields mirror
the keys used by the code; `Option` marks keys that can be absent or `None`
(the two are indistinguishable at every use site via `dict.get`). `rawType`
models the "type" key with `""` standing for an absent or `None` value, which
is how every read site (`q.get("type") or ...`, `_normalize_qtype`) treats it. -/
structure WQ where
  rawType : String
  questionType : String
  question : Option String
  questionText : Option String
  options : Option (List String)
  marks : Int
  difficulty : Option String
  answer : Option String
  explanation : Option String
  source : Option String
  language : Option String
  id : Option Nat
  deriving Repr, DecidableEq

/-- A question object parsed from the generative model's JSON draft. -/
structure DraftQ where
  type : String
  question : String
  options : Option (List String)
  marks : Int
  difficulty : Option String
  answer : Option String
  explanation : Option String
  deriving Repr, DecidableEq

/-- The dictionary for a draft question after the loop
`for q in questions: q["question_type"] = _normalize_qtype(q.get("type"))`. -/
def aiWQ (d : DraftQ) : WQ :=
  { rawType := d.type
    questionType := normalizeQtype d.type
    question := some d.question
    questionText := none
    options := d.options
    marks := d.marks
    difficulty := d.difficulty
    answer := d.answer
    explanation := d.explanation
    source := none
    language := none
    id := none }

/-- The per-bucket selection loop of the reconciliation pass
(`for q in type_questions: ...` in `generate_paper`): stops once
`added_count >= count_needed`, skips candidates whose stripped lower-cased
text is already in the running set, otherwise keeps the candidate and records
its key. Returns the picked candidates and the grown set. -/
def bucketPick (cands : List WQ) (needed added : Int) (used : List String) :
    List WQ × List String :=
  match cands with
  | [] => ([], used)
  | q :: rest =>
    if needed ≤ added then ([], used)
    else
      let key := normKey ((Option.getD q.question ""))
      if key ∈ used then bucketPick rest needed added used
      else
        let p := bucketPick rest needed (added + 1) (key :: used)
        (q :: p.1, p.2)

/-- The reconciliation pass (`balanced_questions` loop): iterates the quota
entries in insertion order, filters the candidates whose normalized type
matches the bucket, and runs `bucketPick` with the shared running set. -/
def reconcile (questions : List WQ) (qdist : List QDistEntry) (used : List String) :
    List WQ × List String :=
  match qdist with
  | [] => ([], used)
  | e :: rest =>
    let nt := normalizeQtype e.label
    let typeQs := questions.filter (fun q => q.questionType = nt)
    let p := bucketPick typeQs e.count 0 used
    let r := reconcile questions rest p.2
    (p.1 ++ r.1, r.2)

/-- Suffix of `l` after the first occurrence of `pat`, or `none` when `pat`
does not occur; the scanning backbone for substring search. -/
def afterFirst (pat : List Char) : List Char → Option (List Char)
  | [] => if pat.isEmpty then some [] else none
  | c :: rest =>
    if pat.isPrefixOf (c :: rest) then some (List.drop pat.length (c :: rest))
    else afterFirst pat rest

/-- Substring containment, modelling the SQL `LIKE`-style
`Question.question_text.contains(topic)` filter. -/
def hasSub (hay pat : String) : Bool :=
  (afterFirst pat.toList hay.toList).isSome

/-- A row of the `chapters` table joined with its subject, class and board
names (the denormalised view the queries in `generate_paper` need). -/
structure ChapterRow where
  chapterId : Nat
  titleEn : String
  subjectName : String
  classNumber : String
  boardName : String
  deriving Repr, DecidableEq

/-- A persisted `Question` row, denormalised with the subject/class/board
names reachable through its chapter (what the join-based filters consult). -/
structure BankQ where
  id : Nat
  chapterId : Nat
  questionType : String
  difficulty : Option String
  marks : Int
  questionText : String
  options : List String
  answer : Option String
  explanation : Option String
  language : String
  boardName : String
  classNumber : String
  subjectName : String
  chapterTitle : String
  deriving Repr, DecidableEq

/-- Embedding of `Question.as_dict()` plus the two assignments
`q_dict['source'] = "Database"` and `q_dict['language'] = q.language` that
`generate_paper` performs on each fetched bank question. `as_dict` emits no
"type" and no "question" key, and `self.options or []` makes "options" always
a list. -/
def bankWQ (b : BankQ) : WQ :=
  { rawType := ""
    questionType := b.questionType
    question := none
    questionText := some b.questionText
    options := some b.options
    marks := b.marks
    difficulty := b.difficulty
    answer := b.answer
    explanation := b.explanation
    source := some "Database"
    language := some b.language
    id := some b.id }

/-- The processing of each selected AI question (`processed_questions` loop):
re-derives `question_type` from the raw "type", copies "question" into
"question_text", tags `source = "AI"` and, when a chapter link was found,
records the database id handed out by the flush. -/
def processAI (assignId : Option Nat) (q : WQ) : WQ :=
  { q with
    id := match assignId with | some n => some n | none => q.id
    source := some "AI"
    questionType := normalizeQtype q.rawType
    questionText := some (Option.getD q.question "") }

/-- A `Question` row as inserted for a selected AI question when a chapter
link exists (`new_q = Question(...)` in `generate_paper`). -/
structure QuestionRow where
  chapterId : Nat
  questionType : String
  difficulty : Option String
  marks : Int
  questionText : String
  options : Option (List String)
  answer : String
  source : String
  explanation : String
  language : String
  deriving Repr, DecidableEq

/-- Embedding of the `Question(...)` constructor call in the
`processed_questions` loop: options are stored only for MCQ, answers default
to "Not provided", explanations to "". -/
def mkQuestionRow (cid : Nat) (lang : String) (q : WQ) : QuestionRow :=
  { chapterId := cid
    questionType := normalizeQtype q.rawType
    difficulty := q.difficulty
    marks := q.marks
    questionText := Option.getD q.question ""
    options := if normalizeQtype q.rawType = "MCQ" then q.options else none
    answer := q.answer.getD "Not provided"
    source := "AI"
    explanation := q.explanation.getD ""
    language := lang }

/-- The external inputs of one generation request that the core consumes. -/
structure GenRequest where
  subject : String
  class_ : String
  board : String
  language : String
  topic : String
  chapters : List String
  qdist : List QDistEntry

/-- The persistent store and the randomiser: `rand` models the
`ORDER BY rand()` reordering the database applies to a result set. -/
structure Ctx where
  chapterRows : List ChapterRow
  db : List BankQ
  rand : List BankQ → List BankQ

/-- Lookup of `first_chapter_id`: only attempted when no topic was given and
chapter names were submitted; matches board, class, subject and the first
submitted chapter title. -/
def firstChapterId (ctx : Ctx) (req : GenRequest) (topicPresent : Bool) : Option Nat :=
  if topicPresent then none
  else
    match req.chapters with
    | [] => none
    | c0 :: _ =>
      ((ctx.chapterRows.filter (fun r =>
          r.boardName = req.board ∧ r.classNumber = req.class_ ∧
          r.subjectName = req.subject ∧ r.titleEn = c0)).map (fun r => r.chapterId)).head?

/-- The chapter-id list built inside the backfill loop:
`Chapter.query.filter(Chapter.title_en.in_(chapters))`, unscoped by board,
class or subject. An empty `chapters` list yields `[]`, exactly as the
guarded Python assignment does. -/
def chapterIds (ctx : Ctx) (chapters : List String) : List Nat :=
  (ctx.chapterRows.filter (fun r => r.titleEn ∈ chapters)).map (fun r => r.chapterId)

/-- The base bank query built when the current bucket has a shortfall:
`Question.query.filter_by(question_type=…, marks=…, language=…)`. -/
def baseQuery (nt : String) (marks : Int) (lang : String) : BankQ → Bool :=
  fun b => b.questionType = nt ∧ b.marks = marks ∧ b.language = lang

/-- Chapter-id scoping: `query.filter(Question.chapter_id.in_(chapter_id_list))`. -/
def scopeChapters (ids : List Nat) (f : BankQ → Bool) : BankQ → Bool :=
  fun b => f b && ids.contains b.chapterId

/-- Topic scoping: `query.filter(Question.question_text.contains(topic))`. -/
def scopeTopic (topic : String) (f : BankQ → Bool) : BankQ → Bool :=
  fun b => f b && hasSub b.questionText topic

/-- Subject/class scoping via joins: the joins themselves add no predicate
over the denormalised rows; the two conditional filters apply only when
`subject` respectively `class_` are non-empty (truthy). -/
def scopeJoin (subject class_ : String) (f : BankQ → Bool) : BankQ → Bool :=
  fun b => f b && (subject == "" || b.subjectName == subject)
             && (class_ == "" || b.classNumber == class_)

/-- The accept loop over fetched bank rows: stops at `missing` accepted,
skips rows whose stripped lower-cased text is already used, otherwise appends
the converted row and records its text. -/
def acceptLoop (fetched : List BankQ) (missing added : Int) (qs : List WQ)
    (used : List String) : List WQ × List String :=
  match fetched with
  | [] => (qs, used)
  | b :: rest =>
    if missing ≤ added then (qs, used)
    else
      let key := normKey b.questionText
      if key ∈ used then acceptLoop rest missing added qs used
      else acceptLoop rest missing (added + 1) (qs ++ [bankWQ b]) (key :: used)

/-- Failure of the request pipeline. `nameError` models the unhandled Python
`NameError`/`UnboundLocalError` raised when the backfill loop reads the
variable `query` before any iteration has assigned it (the assignment sits
under `if missing_for_type > 0:` while every scope branch reads it
unconditionally). -/
inductive PipeErr
  | nameError
  deriving Repr, DecidableEq

/-- The bucket's shortfall, `missing_for_type = max(0, count_needed - picked_count)`,
with `picked_count` counted over the current question list. -/
def bucketMissing (qs : List WQ) (e : QDistEntry) : Int :=
  max 0 (e.count -
    ((qs.filter (fun q => q.questionType = normalizeQtype e.label)).length : Int))

/-- One iteration of the DB-backfill loop, faithful to the source's
indentation: the base query is (re)built only when the bucket has a
shortfall; every scope branch reads the `query` variable before doing
anything else, so the unbound-variable error is hoisted in front of the
branch; and only the subject/class `else` branch actually executes the query
and accepts rows — the chapter-id and topic branches merely refine the query
object. The fetch over-requests `2 * missing` rows after the random
reordering. -/
def backfillStep (ctx : Ctx) (req : GenRequest) (topicPresent : Bool)
    (st : List WQ × List String × Option (BankQ → Bool)) (e : QDistEntry) :
    Except PipeErr (List WQ × List String × Option (BankQ → Bool)) :=
  let missing := bucketMissing st.1 e
  let q1 := if 0 < missing then
      some (baseQuery (normalizeQtype e.label) e.marks req.language)
    else st.2.2
  match q1 with
  | none => Except.error PipeErr.nameError
  | some f =>
    let cids := chapterIds ctx req.chapters
    if cids ≠ [] then Except.ok (st.1, st.2.1, some (scopeChapters cids f))
    else if topicPresent then Except.ok (st.1, st.2.1, some (scopeTopic req.topic f))
    else
      let f2 := scopeJoin req.subject req.class_ f
      let p := acceptLoop ((ctx.rand (ctx.db.filter f2)).take (missing.toNat * 2))
        missing 0 st.1 st.2.1
      Except.ok (p.1, p.2, some f2)

/-- The whole DB-backfill pass: folds `backfillStep` over the quota entries,
seeding the running text set with the stripped lower-cased `question_text`
of every already-selected question (`existing_question_texts`). -/
def backfillPhase (ctx : Ctx) (req : GenRequest) (topicPresent : Bool)
    (processed : List WQ) : Except PipeErr (List WQ) :=
  match req.qdist.foldlM (backfillStep ctx req topicPresent)
    (processed, processed.map (fun q => normKey (Option.getD q.questionText "")), none) with
  | Except.error e => Except.error e
  | Except.ok st => Except.ok st.1

/-- The `basic_question` dictionary of the synthetic last-resort fallback
(note: it has a "question" key but no "question_text" key). -/
def basicQuestion (subject class_ language : String) : WQ :=
  { rawType := "Short"
    questionType := "Short Answer"
    question := some ("Explain the basic concepts related to " ++ subject ++
      " for Class " ++ class_ ++ ".")
    questionText := none
    options := none
    marks := 3
    difficulty := some "Medium"
    answer := some "Answer would depend on the specific topic."
    explanation := some "This is a fallback question generated due to limited database content."
    source := some "Fallback"
    language := some language
    id := none }

/-- Embedding of `total_needed = sum(int(info['count']) for info in qdist.values())`. -/
def totalNeeded (qdist : List QDistEntry) : Int :=
  qdist.foldl (fun a e => a + e.count) 0

/-- The fixed section-order list `type_order` used as the sorting key. -/
def typeOrderList : List String :=
  ["MCQ", "Multiple Choice", "Fill in the Blanks", "Fill", "Short Answer", "Short",
   "Long Answer", "Long", "Matching", "Match", "Match the Following", "Case Study", "Case"]

/-- Embedding of `q.get("type") or q.get("question_type") or ""`: the raw
"type" value when truthy, else `question_type` (with `""` standing for an
absent or `None` value). -/
def displayType (q : WQ) : String :=
  if q.rawType ≠ "" then q.rawType else q.questionType

/-- Embedding of `get_type_order`: position of the stripped display type in
`type_order`, with `len(type_order)` for an unknown label (`List.indexOf`
returns the length exactly when the element is absent, matching the
`except ValueError` branch). -/
def getTypeOrder (q : WQ) : Nat :=
  typeOrderList.indexOf (pyStrip (displayType q))

/-- Embedding of `sorted(questions, key=get_type_order)`. Python's `sorted`
is a stable sort, and a stable sort by a key with values in `0..13` is
exactly the concatenation of the key's fibers taken in key order, which is
what this computes (each fiber is a `filter`, so it preserves source order). -/
def sortByTypeOrder (qs : List WQ) : List WQ :=
  ((List.range (typeOrderList.length + 1)).map
    (fun i => qs.filter (fun q => getTypeOrder q = i))).flatten

/-- The six PDF section keys, in the `sections` dict insertion order. -/
def sectionKeys : List String :=
  ["Multiple Choice", "Fill in the Blanks", "Short Answer", "Long Answer",
   "Matching", "Case Study"]

/-- The section label computed for a question when filling the PDF sections:
`_normalize_qtype(q.get("question_type", ""))` with "MCQ" renamed to
"Multiple Choice". -/
def pdfSectionType (q : WQ) : String :=
  let t := normalizeQtype q.questionType
  if t = "MCQ" then "Multiple Choice" else t

/-- The per-section question lists, in fixed section order; a question whose
section label is not one of the six keys lands in no list. -/
def sectionLists (qs : List WQ) : List (List WQ) :=
  sectionKeys.map (fun k => qs.filter (fun q => pdfSectionType q = k))

/-- The Jinja `q_num` counter: numbers a question sequence consecutively
starting from `n` (the template never resets it between sections). -/
def numberFrom (n : Nat) : List WQ → List (Nat × WQ)
  | [] => []
  | q :: rest => (n, q) :: numberFrom (n + 1) rest

/-- A persisted `PaperQuestion` row. -/
structure PQRow where
  questionId : Option Nat
  questionText : Option String
  type : String
  difficulty : Option String
  marks : Int
  options : Option (List String)
  answer : String
  deriving Repr, DecidableEq

/-- Python truthiness of `q.get("options") if q.get("options") else None`:
a missing/`None` value or an empty list becomes `None`. -/
def truthyOptions (o : Option (List String)) : Option (List String) :=
  match o with
  | some l => if l = [] then none else some l
  | none => none

/-- Embedding of the `PaperQuestion` insert loop body. -/
def mkPQ (q : WQ) : PQRow :=
  { questionId := q.id
    questionText := q.questionText
    type := q.questionType
    difficulty := q.difficulty
    marks := q.marks
    options := truthyOptions q.options
    answer := q.answer.getD "Not provided" }

/-- One entry of the JSON response's `questions` array. -/
structure RespItem where
  id : Option Nat
  questionText : Option String
  marks : Int
  difficulty : Option String
  type : String
  source : String
  deriving Repr, DecidableEq

/-- Embedding of the response projection in the final `jsonify` call. -/
def respItem (q : WQ) : RespItem :=
  { id := q.id
    questionText := q.questionText
    marks := q.marks
    difficulty := q.difficulty
    type := if q.rawType ≠ "" then q.rawType else q.questionType
    source := q.source.getD "Database" }

/-- Everything externally observable that one successful request produces:
the `Paper` row aggregates, the persisted rows, the snapshot/response
question list (sorted), and the numbered PDF question sequence. -/
structure PaperResult where
  totalQuestions : Nat
  totalMarks : Int
  questionsSorted : List WQ
  insertedQuestions : List QuestionRow
  paperQuestions : List PQRow
  renderedSeq : List (Nat × WQ)
  responseQuestions : List RespItem
  deriving Repr, DecidableEq

/-- Assembly after the question list is final: aggregates and `PaperQuestion`
rows are computed from the unsorted list (as in the source, where persistence
happens before sorting), the snapshot/response use the sorted list, and the
PDF flattens the nonempty sections in fixed order with a continuous counter
(skipping an empty section does not change the flattening). -/
def assemble (rows : List QuestionRow) (qs : List WQ) : PaperResult :=
  let sorted := sortByTypeOrder qs
  { totalQuestions := qs.length
    totalMarks := qs.foldl (fun a q => a + q.marks) 0
    questionsSorted := sorted
    insertedQuestions := rows
    paperQuestions := qs.map mkPQ
    renderedSeq := numberFrom 1 (sectionLists sorted).flatten
    responseQuestions := sorted.map respItem }

/-- The `db.session.flush()` id hand-out: when a chapter link exists every
selected question is inserted and receives the next autoincrement id,
modelled as consecutive ids from `n`. -/
def processWithIds (n : Nat) : List WQ → List WQ
  | [] => []
  | q :: rest => processAI (some n) q :: processWithIds (n + 1) rest

/-- Truthiness of the submitted topic: `bool(topic and topic.strip())`. -/
def topicPresentOf (req : GenRequest) : Bool :=
  pyStrip req.topic ≠ ""

/-- The selection phase: normalize and reconcile the draft against the quota,
then run the `processed_questions` loop (ids are handed out consecutively
from 1, modelling the autoincrement column, when a chapter link exists). -/
def selectPhase (ctx : Ctx) (req : GenRequest) (topicPresent : Bool)
    (draftQs : List DraftQ) : List WQ :=
  let selected := (reconcile (draftQs.map aiWQ) req.qdist []).1
  match firstChapterId ctx req topicPresent with
  | some _ => processWithIds 1 selected
  | none => selected.map (processAI none)

/-- The core of `generate_paper` from the parsed draft onwards. `draftQs` is
the candidate list after parsing; a generative failure or malformed draft is
passed in as `[]` (the `except` handler sets `questions = []`). The DB
backfill runs only when the selected count is below `total_needed`, and the
synthetic fill tops the list up to `total_needed` afterwards. -/
def generatePaper (ctx : Ctx) (req : GenRequest) (draftQs : List DraftQ) :
    Except PipeErr PaperResult :=
  let topicPresent : Bool := topicPresentOf req
  let selected := (reconcile (draftQs.map aiWQ) req.qdist []).1
  let fcid := firstChapterId ctx req topicPresent
  let processed := selectPhase ctx req topicPresent draftQs
  let rows := match fcid with
    | some cid => selected.map (mkQuestionRow cid req.language)
    | none => []
  let need := totalNeeded req.qdist
  if (processed.length : Int) < need then
    match backfillPhase ctx req topicPresent processed with
    | Except.error e => Except.error e
    | Except.ok qs1 =>
      let qs2 := if (qs1.length : Int) < need then
          qs1 ++ List.replicate (need - (qs1.length : Int)).toNat
            (basicQuestion req.subject req.class_ req.language)
        else qs1
      Except.ok (assemble rows qs2)
  else Except.ok (assemble rows processed)

/-- Leading part of the list before the first occurrence of `pat`, or `none`
when `pat` does not occur. -/
def beforeFirst (pat : List Char) : List Char → Option (List Char)
  | [] => if pat.isEmpty then some [] else none
  | c :: rest =>
    if pat.isPrefixOf (c :: rest) then some []
    else (beforeFirst pat rest).map (fun l => c :: l)

/-- Embedding of `re.search(r"```json\s*(.*?)```", raw_text, re.DOTALL)` and
its `group(1)`: the regex matches at the first occurrence of "```json" that
has a later "```" (if the first occurrence has none, no later one can have
one either, since any later "```json" itself starts with "```"); `\s*` then
greedily eats the whitespace after "```json" (whitespace never contains a
backtick) and the lazy group captures up to the next "```". -/
def extractFenced (s : String) : Option String :=
  match afterFirst "```json".toList s.toList with
  | none => none
  | some tail =>
    (beforeFirst "```".toList (tail.dropWhile Char.isWhitespace)).map String.mk

/-- Outcome of the draft-parsing region of the `try` block. `jsonLoads`
abstracts `json.loads` followed by reading each array item's fields (the
stdlib parser is an external collaborator); it returns `none` when parsing
raises. The chain: direct parse of the (already stripped) text, then the
fenced-block search, then failure — a `JSONDecodeError` escaping the inner
handler and the explicit `ValueError("AI returned invalid JSON.")` both
reach the enclosing handler, so they are one error case. -/
def parseDraftChain (jsonLoads : String → Option (List DraftQ)) (rawText : String) :
    Except Unit (List DraftQ) :=
  match jsonLoads rawText with
  | some qs => Except.ok qs
  | none =>
    match extractFenced rawText with
    | some inner =>
      match jsonLoads inner with
      | some qs => Except.ok qs
      | none => Except.error ()
    | none => Except.error ()

/-- The enclosing `except` handler's policy: any failure in the AI phase
yields `questions = []` and the request continues with fallback sourcing. -/
def draftOrEmpty (jsonLoads : String → Option (List DraftQ)) (rawText : String) :
    List DraftQ :=
  match parseDraftChain jsonLoads rawText with
  | Except.ok qs => qs
  | Except.error _ => []

/-- Removal of a leading `$` with any whitespace before it, modelling
`re.sub(r'^\s*\$', '', text)` (anchored, so it can only fire at position 0). -/
def stripLeadingDollar (s : String) : String :=
  match s.toList.dropWhile Char.isWhitespace with
  | '$' :: r => String.mk r
  | _ => s

/-- Removal of a trailing `$` with any whitespace after it, modelling
`re.sub(r'\$\s*$', '', text)`: the leftmost match of that pattern is the last
`$` followed only by whitespace, and the substitution removes the `$` and the
whitespace after it. -/
def stripTrailingDollar (s : String) : String :=
  match s.toList.reverse.dropWhile Char.isWhitespace with
  | '$' :: r => String.mk r.reverse
  | _ => s

/-- Modelling of `re.sub(r'(\d+)\^(\d+)', r'\1<sup>\2</sup>', text)`:
left-to-right, non-overlapping; on a failed match the scan advances one
character, exactly as the regex engine does (a digit run not followed by a
caret cannot match at any split of that run). -/
def subSup : List Char → List Char
  | [] => []
  | c :: rest =>
    if c.isDigit then
      let ds := (c :: rest).takeWhile Char.isDigit
      match h2 : (c :: rest).drop ds.length with
      | '^' :: r2 =>
        let ds2 := r2.takeWhile Char.isDigit
        if ds2.length = 0 then c :: subSup rest
        else
          ds ++ "<sup>".toList ++ ds2 ++ "</sup>".toList ++ subSup (r2.drop ds2.length)
      | _ => c :: subSup rest
    else c :: subSup rest
  termination_by l => l.length
  decreasing_by
  · simp only [List.length_cons]
    omega
  · have hlen := congrArg List.length h2
    simp only [List.length_drop, List.length_cons] at hlen
    simp only [List.length_drop, List.length_cons]
    omega
  · simp only [List.length_cons]
    omega
  · simp only [List.length_cons]
    omega

/-- Modelling of
`re.sub(r'\\frac\{([^}]+)\}\{([^}]+)\}', r'<sup>\1</sup>&frasl;<sub>\2</sub>', text)`:
after the literal `\frac{`, a nonempty brace-free group, `}`, `{`, a second
nonempty brace-free group and `}`; on any failure the scan advances one
character (the greedy `[^}]+` has no alternative parses, it must stop at the
first `}`). -/
def subFrac : List Char → List Char
  | [] => []
  | c :: rest =>
    if ("\\frac\x7b".toList).isPrefixOf (c :: rest) then
      let a := ((c :: rest).drop 6).takeWhile (fun x => x ≠ '}')
      match h2 : ((c :: rest).drop 6).drop a.length with
      | '}' :: '{' :: r3 =>
        if a.length = 0 then c :: subFrac rest
        else
          let b := r3.takeWhile (fun x => x ≠ '}')
          match h4 : r3.drop b.length with
          | '}' :: r4 =>
            if b.length = 0 then c :: subFrac rest
            else
              "<sup>".toList ++ a ++ "</sup>&frasl;<sub>".toList ++ b ++
                "</sub>".toList ++ subFrac r4
          | _ => c :: subFrac rest
      | _ => c :: subFrac rest
    else c :: subFrac rest
  termination_by l => l.length
  decreasing_by
  · simp only [List.length_cons]
    omega
  · simp only [List.length_cons]
    omega
  · have hlen2 := congrArg List.length h2
    have hlen4 := congrArg List.length h4
    simp only [List.length_drop, List.length_cons] at hlen2 hlen4
    simp only [List.length_drop, List.length_cons]
    omega
  · simp only [List.length_cons]
    omega
  · simp only [List.length_cons]
    omega
  · simp only [List.length_cons]
    omega

/-- Python `str.replace` on character lists: replace every non-overlapping
occurrence of `pat`, scanning left to right (an empty pattern leaves the list
unchanged; every pattern this code replaces is non-empty). -/
def replaceL (pat rep : List Char) : List Char → List Char
  | [] => []
  | c :: rest =>
    if h : pat ≠ [] ∧ pat.isPrefixOf (c :: rest) then
      rep ++ replaceL pat rep ((c :: rest).drop pat.length)
    else c :: replaceL pat rep rest
  termination_by l => l.length
  decreasing_by
  · have hpos : 0 < pat.length := List.length_pos.mpr h.1
    simp only [List.length_drop, List.length_cons]
    omega
  · simp only [List.length_cons]
    omega

/-- Python `str.replace`. -/
def pyReplace (s pat rep : String) : String :=
  String.mk (replaceL pat.toList rep.toList s.toList)

/-- Embedding of `render_simple_math`: the `$` strips, the literal
replacements in source order, then the superscript and fraction rewrites.
`if not text: return ""` short-circuits the empty string. -/
def renderSimpleMath (text : String) : String :=
  if text = "" then ""
  else
    let t := stripTrailingDollar (stripLeadingDollar text)
    let t := pyReplace (pyReplace (pyReplace (pyReplace (pyReplace (pyReplace t
      "\\times" "×") "^\\circ" "°") "\\circ" "°") "\\le" "≤") "\\ge" "≥") "\\ne" "≠"
    String.mk (subFrac (subSup t.toList))

/-- The JSON snapshot persisted as `static/papers/{paper_id}.json`; the only
source both download routes read. -/
structure Snapshot where
  paperId : String
  examName : Option String
  schoolName : Option String
  schoolBoard : Option String
  className : Option String
  subject : Option String
  questions : List WQ
  summaryTotalQuestions : Nat
  summaryTotalMarks : Int
  deriving Repr, DecidableEq

/-- Python `f"{x}"` interpolation of a possibly-`None` string. -/
def pyStr (o : Option String) : String := o.getD "None"

/-- The paragraphs `download_word` emits for one question: the `Q{i}.` line,
then one option line per option when the stored `question_type` is an MCQ
label. Reading `q['question_text']` on a question that lacks the key (a
synthetic fallback question) raises `KeyError`, the error case here. -/
def wordQuestionPars (i : Nat) (q : WQ) : Except Unit (List String) :=
  match q.questionText with
  | none => Except.error ()
  | some qt =>
    Except.ok (("Q" ++ toString i ++ ". " ++ qt ++ " (" ++ toString q.marks ++
        " marks) [" ++ pyStr q.difficulty ++ "]") ::
      (if q.questionType = "MCQ" ∨ q.questionType = "Multiple Choice" then
        (q.options.getD []).enum.map (fun p =>
          "   (" ++ String.singleton (Char.ofNat (96 + (p.1 + 1))) ++ ") " ++ p.2)
      else []))

/-- The question paragraphs of the Word export, numbering from `i`. -/
def wordBody (i : Nat) : List WQ → Except Unit (List String)
  | [] => Except.ok []
  | q :: rest =>
    match wordQuestionPars i q with
    | Except.error e => Except.error e
    | Except.ok pars =>
      match wordBody (i + 1) rest with
      | Except.error e => Except.error e
      | Except.ok more => Except.ok (pars ++ more)

/-- The document model `download_word` builds from a snapshot: headings and
paragraphs in order. -/
def buildWordDoc (p : Snapshot) : Except Unit (List String) :=
  match wordBody 1 p.questions with
  | Except.error e => Except.error e
  | Except.ok body =>
    Except.ok ([p.examName.getD "Question Paper",
      "School: " ++ pyStr p.schoolName,
      "Board: " ++ pyStr p.schoolBoard,
      "Class: " ++ pyStr p.className ++ "  Subject: " ++ pyStr p.subject,
      "Questions"] ++ body)

/-- The paragraphs `download_answer_key` draws for one question (all reads
use `dict.get` with defaults, so nothing can raise here); the explanation
paragraph is emitted only when the rendered explanation is truthy. -/
def answerKeyQuestionPars (i : Nat) (q : WQ) : List String :=
  let questionText := renderSimpleMath (q.questionText.getD "")
  let answerText := renderSimpleMath (q.answer.getD "Answer not available")
  let explanationText := renderSimpleMath (q.explanation.getD "")
  ["<b>Q" ++ toString i ++ ":</b> " ++ questionText,
   "<b>Answer:</b> " ++ answerText] ++
  (if explanationText ≠ "" then ["<b>Explanation:</b> " ++ explanationText] else [])

/-- The question paragraphs of the answer key, numbering from `i`. -/
def answerKeyBody (i : Nat) : List WQ → List String
  | [] => []
  | q :: rest => answerKeyQuestionPars i q ++ answerKeyBody (i + 1) rest

/-- The document model `download_answer_key` draws from a snapshot. -/
def buildAnswerKeyDoc (p : Snapshot) : List String :=
  ["Answer Key - " ++ p.examName.getD "Exam",
   "School: " ++ p.schoolName.getD "",
   "Class: " ++ p.className.getD "" ++ " | Subject: " ++ p.subject.getD ""] ++
  answerKeyBody 1 p.questions

/-- The `/api/download/word/<paper_id>` route over an abstract snapshot store
(the JSON files on disk, keyed by paper id); `none` is the 404 branch. -/
def downloadWord (store : String → Option Snapshot) (pid : String) :
    Option (Except Unit (List String)) :=
  (store pid).map buildWordDoc

/-- The `/api/download/answer_key/<paper_id>` route over the same store. -/
def downloadAnswerKey (store : String → Option Snapshot) (pid : String) :
    Option (List String) :=
  (store pid).map buildAnswerKeyDoc

/-! ### Lemmas about the reconciliation pass -/

/-- The duplicate-detection key of the AI reconciliation pass
(`hash(q.get("question", "").strip().lower())`, with the idealisation that the
hash is injective, standard for text-set membership). -/
def qKey (q : WQ) : String := normKey (Option.getD q.question "")

/-- The duplicate-detection key of the DB-backfill pass
(`q.get("question_text", "").strip().lower()`). -/
def tKey (q : WQ) : String := normKey (Option.getD q.questionText "")

theorem tKey_processAI (aid : Option Nat) (q : WQ) : tKey (processAI aid q) = qKey q := rfl

theorem processAI_options (aid : Option Nat) (q : WQ) :
    (processAI aid q).options = q.options := rfl

theorem processAI_source (aid : Option Nat) (q : WQ) :
    (processAI aid q).source = some "AI" := rfl

theorem bucketPick_sublist (cands : List WQ) (needed added : Int) (used : List String) :
    ((bucketPick cands needed added used).1).Sublist cands := by
  induction cands generalizing added used with
  | nil => simp [bucketPick]
  | cons q rest ih =>
    simp only [bucketPick]
    split
    · exact List.nil_sublist _
    · split
      · exact (ih added used).cons q
      · exact (ih (added + 1) _).cons₂ q

theorem bucketPick_length (cands : List WQ) (needed added : Int) (used : List String) :
    (((bucketPick cands needed added used).1).length : Int) ≤ max (needed - added) 0 := by
  induction cands generalizing added used with
  | nil => simp [bucketPick]
  | cons q rest ih =>
    simp only [bucketPick]
    split
    · simp
    · rename_i hna
      split
      · exact le_trans (ih added used) (by omega)
      · have h := ih (added + 1) (normKey (Option.getD q.question "") :: used)
        simp only [List.length_cons]
        push_cast at h ⊢
        omega

theorem bucketPick_types (cands : List WQ) (t : String) (needed added : Int)
    (used : List String) {q : WQ}
    (hq : q ∈ (bucketPick (cands.filter (fun q => q.questionType = t)) needed added used).1) :
    q.questionType = t := by
  have h := (bucketPick_sublist _ _ _ _).subset hq
  rw [List.mem_filter] at h
  simpa using h.2

theorem reconcile_mem {q : WQ} {cands : List WQ} {qdist : List QDistEntry}
    {used : List String} (hq : q ∈ (reconcile cands qdist used).1) :
    q ∈ cands ∧ ∃ e ∈ qdist, q.questionType = normalizeQtype e.label := by
  induction qdist generalizing used with
  | nil => simp [reconcile] at hq
  | cons e rest ih =>
    simp only [reconcile, List.mem_append] at hq
    rcases hq with hq | hq
    · have hsub := (bucketPick_sublist _ e.count 0 used).subset hq
      rw [List.mem_filter] at hsub
      exact ⟨hsub.1, e, List.mem_cons_self e rest, by simpa using hsub.2⟩
    · obtain ⟨hc, e', he', ht⟩ := ih hq
      exact ⟨hc, e', List.mem_cons_of_mem e he', ht⟩

/-- Number of selected questions whose `question_type` is the given
(normalized) label. -/
def countType (qs : List WQ) (t : String) : Nat :=
  (qs.filter (fun q => q.questionType = t)).length

theorem reconcile_countType {cands : List WQ} {qdist : List QDistEntry}
    {used : List String}
    (hnd : (qdist.map (fun e => normalizeQtype e.label)).Nodup)
    {e : QDistEntry} (he : e ∈ qdist) :
    ((countType (reconcile cands qdist used).1 (normalizeQtype e.label) : Int))
      ≤ max e.count 0 := by
  induction qdist generalizing used with
  | nil => simp at he
  | cons f rest ih =>
    rw [List.map_cons, List.nodup_cons] at hnd
    simp only [reconcile, countType, List.filter_append, List.length_append]
    rcases List.mem_cons.mp he with rfl | he'
    · have hz : ((reconcile cands rest
          (bucketPick (cands.filter (fun q => q.questionType = normalizeQtype e.label))
            e.count 0 used).2).1.filter
          (fun q => q.questionType = normalizeQtype e.label)) = [] := by
        rw [List.filter_eq_nil_iff]
        intro q hq
        obtain ⟨-, e', he', ht⟩ := reconcile_mem hq
        have : normalizeQtype e'.label ∈ rest.map (fun e => normalizeQtype e.label) :=
          List.mem_map.mpr ⟨e', he', rfl⟩
        simp only [decide_eq_true_eq]
        intro hcontra
        exact hnd.1 (by rw [← ht, hcontra] at this; exact this)
      rw [hz]
      have h1 := List.length_filter_le
        (fun q => q.questionType = normalizeQtype e.label)
        (bucketPick (cands.filter (fun q => q.questionType = normalizeQtype e.label))
          e.count 0 used).1
      have h2 := bucketPick_length
        (cands.filter (fun q => q.questionType = normalizeQtype e.label)) e.count 0 used
      simp only [List.length_nil]
      push_cast at h2 ⊢
      omega
    · have hne : normalizeQtype f.label ≠ normalizeQtype e.label := by
        intro hcontra
        exact hnd.1 (hcontra ▸ List.mem_map.mpr ⟨e, he', rfl⟩)
      have hz : ((bucketPick (cands.filter (fun q => q.questionType = normalizeQtype f.label))
          f.count 0 used).1.filter (fun q => q.questionType = normalizeQtype e.label)) = [] := by
        rw [List.filter_eq_nil_iff]
        intro q hq
        have := bucketPick_types cands (normalizeQtype f.label) f.count 0 used hq
        simp only [decide_eq_true_eq]
        rw [this]
        exact hne
      rw [hz]
      have h3 := @ih
        ((bucketPick (cands.filter (fun q => q.questionType = normalizeQtype f.label))
          f.count 0 used).2) hnd.2 he'
      simp only [countType, List.length_nil] at h3 ⊢
      push_cast at h3 ⊢
      omega

/-- Claim C3: for every valid quota (canonical buckets pairwise distinct,
counts non-negative) and any candidate sequence, the reconciliation pass
selects at most `requiredCount` items per canonical type, every selected
item's normalized type matches a quota bucket, and each bucket takes its
survivors as a subsequence of the candidate order (stable, no reordering). -/
theorem claim_C3_reconcile_bounds (cands : List WQ) (qdist : List QDistEntry)
    (hnd : (qdist.map (fun e => normalizeQtype e.label)).Nodup)
    (hpos : ∀ e ∈ qdist, 0 ≤ e.count) :
    (∀ e ∈ qdist,
        ((countType (reconcile cands qdist []).1 (normalizeQtype e.label) : Int))
          ≤ e.count)
    ∧ (∀ q ∈ (reconcile cands qdist []).1,
        ∃ e ∈ qdist, q.questionType = normalizeQtype e.label)
    ∧ (∀ (cs : List WQ) (n a : Int) (u : List String),
        ((bucketPick cs n a u).1).Sublist cs) := by
  refine ⟨fun e he => ?_, fun q hq => (reconcile_mem hq).2, fun cs n a u => bucketPick_sublist cs n a u⟩
  have h := @reconcile_countType cands qdist [] hnd e he
  have := hpos e he
  omega

/-- Witness for claim C3 at a concrete quota and candidate list. -/
theorem claim_C3_witness :
    ((countType (reconcile
        [aiWQ ⟨"MCQ", "q one", some ["A", "B", "C", "D"], 1, some "Easy", some "A", some "x"⟩,
         aiWQ ⟨"MCQ", "q two", some ["A", "B", "C", "D"], 1, some "Easy", some "A", some "x"⟩]
        [⟨"MCQ", 1, 1⟩] []).1 (normalizeQtype "MCQ") : Int)) ≤ 1 := by
  have h := (claim_C3_reconcile_bounds
    [aiWQ ⟨"MCQ", "q one", some ["A", "B", "C", "D"], 1, some "Easy", some "A", some "x"⟩,
     aiWQ ⟨"MCQ", "q two", some ["A", "B", "C", "D"], 1, some "Easy", some "A", some "x"⟩]
    [⟨"MCQ", 1, 1⟩] (by decide) (by decide)).1 ⟨"MCQ", 1, 1⟩ (by decide)
  exact h

/-! ### Deduplication lemmas -/

theorem bucketPick_dedup (cands : List WQ) (needed added : Int) (used : List String) :
    (∀ x ∈ used, x ∈ (bucketPick cands needed added used).2)
    ∧ (∀ q ∈ (bucketPick cands needed added used).1,
        qKey q ∈ (bucketPick cands needed added used).2)
    ∧ (∀ q ∈ (bucketPick cands needed added used).1, qKey q ∉ used)
    ∧ ((bucketPick cands needed added used).1).Pairwise (fun a b => qKey a ≠ qKey b) := by
  induction cands generalizing added used with
  | nil => simp [bucketPick]
  | cons q rest ih =>
    simp only [bucketPick]
    split
    · simp
    · split
      · exact ih added used
      · rename_i hna hmem
        obtain ⟨ih1, ih2, ih3, ih4⟩ :=
          ih (added + 1) (normKey (Option.getD q.question "") :: used)
        refine ⟨?_, ?_, ?_, ?_⟩
        · intro x hx
          exact ih1 x (List.mem_cons_of_mem _ hx)
        · intro q' hq'
          rcases List.mem_cons.mp hq' with rfl | hq'
          · exact ih1 _ (List.mem_cons_self _ _)
          · exact ih2 q' hq'
        · intro q' hq'
          rcases List.mem_cons.mp hq' with rfl | hq'
          · exact hmem
          · intro hcontra
            exact ih3 q' hq' (List.mem_cons_of_mem _ hcontra)
        · rw [List.pairwise_cons]
          refine ⟨?_, ih4⟩
          intro b hb hcontra
          exact ih3 b hb (by rw [← hcontra]; exact List.mem_cons_self _ _)

theorem reconcile_dedup (cands : List WQ) (qdist : List QDistEntry) (used : List String) :
    (∀ x ∈ used, x ∈ (reconcile cands qdist used).2)
    ∧ (∀ q ∈ (reconcile cands qdist used).1, qKey q ∈ (reconcile cands qdist used).2)
    ∧ (∀ q ∈ (reconcile cands qdist used).1, qKey q ∉ used)
    ∧ ((reconcile cands qdist used).1).Pairwise (fun a b => qKey a ≠ qKey b) := by
  induction qdist generalizing used with
  | nil => simp [reconcile]
  | cons e rest ih =>
    simp only [reconcile]
    obtain ⟨b1, b2, b3, b4⟩ := bucketPick_dedup
      (cands.filter (fun q => q.questionType = normalizeQtype e.label)) e.count 0 used
    obtain ⟨r1, r2, r3, r4⟩ := ih
      (bucketPick (cands.filter (fun q => q.questionType = normalizeQtype e.label))
        e.count 0 used).2
    refine ⟨?_, ?_, ?_, ?_⟩
    · intro x hx
      exact r1 x (b1 x hx)
    · intro q' hq'
      rcases List.mem_append.mp hq' with hq' | hq'
      · exact r1 _ (b2 q' hq')
      · exact r2 q' hq'
    · intro q' hq'
      rcases List.mem_append.mp hq' with hq' | hq'
      · exact b3 q' hq'
      · intro hcontra
        exact r3 q' hq' (b1 _ hcontra)
    · rw [List.pairwise_append]
      refine ⟨b4, r4, ?_⟩
      intro a ha b hb hcontra
      exact r3 b hb (by rw [← hcontra]; exact b2 a ha)

theorem processWithIds_mem {q' : WQ} {l : List WQ} {n : Nat}
    (h : q' ∈ processWithIds n l) : ∃ q0 ∈ l, ∃ m, q' = processAI (some m) q0 := by
  induction l generalizing n with
  | nil => simp [processWithIds] at h
  | cons q rest ih =>
    simp only [processWithIds, List.mem_cons] at h
    rcases h with rfl | h
    · exact ⟨q, List.mem_cons_self _ _, n, rfl⟩
    · obtain ⟨q0, hq0, m, rfl⟩ := ih h
      exact ⟨q0, List.mem_cons_of_mem _ hq0, m, rfl⟩

theorem selectPhase_mem {ctx : Ctx} {req : GenRequest} {tp : Bool} {draftQs : List DraftQ}
    {q : WQ} (h : q ∈ selectPhase ctx req tp draftQs) :
    ∃ q0 ∈ (reconcile (draftQs.map aiWQ) req.qdist []).1, ∃ aid, q = processAI aid q0 := by
  unfold selectPhase at h
  rcases hfc : firstChapterId ctx req tp with - | cid
  · rw [hfc] at h
    obtain ⟨q0, hq0, rfl⟩ := List.mem_map.mp h
    exact ⟨q0, hq0, none, rfl⟩
  · rw [hfc] at h
    obtain ⟨q0, hq0, m, rfl⟩ := processWithIds_mem h
    exact ⟨q0, hq0, some m, rfl⟩

theorem processWithIds_pairwise {l : List WQ} (n : Nat)
    (h : l.Pairwise (fun a b => qKey a ≠ qKey b)) :
    (processWithIds n l).Pairwise (fun a b => tKey a ≠ tKey b) := by
  induction l generalizing n with
  | nil => simp [processWithIds]
  | cons q rest ih =>
    rw [List.pairwise_cons] at h
    simp only [processWithIds]
    rw [List.pairwise_cons]
    refine ⟨?_, ih (n + 1) h.2⟩
    intro b hb
    obtain ⟨q0, hq0, m, rfl⟩ := processWithIds_mem hb
    rw [tKey_processAI, tKey_processAI]
    exact h.1 q0 hq0

theorem selectPhase_pairwise (ctx : Ctx) (req : GenRequest) (tp : Bool)
    (draftQs : List DraftQ) :
    (selectPhase ctx req tp draftQs).Pairwise (fun a b => tKey a ≠ tKey b) := by
  have hrec := (reconcile_dedup (draftQs.map aiWQ) req.qdist []).2.2.2
  unfold selectPhase
  rcases firstChapterId ctx req tp with - | cid
  · simp only []
    rw [List.pairwise_map]
    exact hrec.imp (fun {a b} hab => by rw [tKey_processAI, tKey_processAI]; exact hab)
  · exact processWithIds_pairwise 1 hrec

theorem acceptLoop_dedup (fetched : List BankQ) (missing added : Int) (qs : List WQ)
    (used : List String)
    (h1 : ∀ q ∈ qs, tKey q ∈ used)
    (h2 : qs.Pairwise (fun a b => tKey a ≠ tKey b)) :
    (∀ q ∈ (acceptLoop fetched missing added qs used).1,
        tKey q ∈ (acceptLoop fetched missing added qs used).2)
    ∧ ((acceptLoop fetched missing added qs used).1).Pairwise
        (fun a b => tKey a ≠ tKey b) := by
  induction fetched generalizing added qs used with
  | nil => exact ⟨h1, h2⟩
  | cons b rest ih =>
    simp only [acceptLoop]
    split
    · exact ⟨h1, h2⟩
    · split
      · exact ih added qs used h1 h2
      · rename_i hna hmem
        apply ih
        · intro q hq
          rcases List.mem_append.mp hq with hq | hq
          · exact List.mem_cons_of_mem _ (h1 q hq)
          · rw [List.mem_singleton] at hq
            subst hq
            exact List.mem_cons_self _ _
        · rw [List.pairwise_append]
          refine ⟨h2, List.pairwise_singleton _ _, ?_⟩
          intro a ha b' hb'
          rw [List.mem_singleton] at hb'
          subst hb'
          intro hcontra
          apply hmem
          have hmemkey := h1 a ha
          rw [hcontra] at hmemkey
          exact hmemkey

/-- The dedup invariant carried through the backfill fold: every selected
text key is in the running set and keys are pairwise distinct. -/
def DedupInv (st : List WQ × List String × Option (BankQ → Bool)) : Prop :=
  (∀ q ∈ st.1, tKey q ∈ st.2.1) ∧ st.1.Pairwise (fun a b => tKey a ≠ tKey b)

theorem backfillStep_dedup {ctx : Ctx} {req : GenRequest} {tp : Bool}
    {st st' : List WQ × List String × Option (BankQ → Bool)} {e : QDistEntry}
    (hstep : backfillStep ctx req tp st e = Except.ok st') (h : DedupInv st) :
    DedupInv st' := by
  simp only [backfillStep] at hstep
  split at hstep
  · cases hstep
  · split at hstep
    · simp only [Except.ok.injEq] at hstep
      subst hstep
      exact h
    · split at hstep
      · simp only [Except.ok.injEq] at hstep
        subst hstep
        exact h
      · simp only [Except.ok.injEq] at hstep
        subst hstep
        obtain ⟨h1, h2⟩ := acceptLoop_dedup _ _ 0 st.1 st.2.1 h.1 h.2
        exact ⟨h1, h2⟩

theorem backfill_fold_dedup {ctx : Ctx} {req : GenRequest} {tp : Bool} :
    ∀ (qdist : List QDistEntry) (st st' : List WQ × List String × Option (BankQ → Bool)),
      List.foldlM (backfillStep ctx req tp) st qdist = Except.ok st' →
      DedupInv st → DedupInv st' := by
  intro qdist
  induction qdist with
  | nil =>
    intro st st' hfold h
    simp only [List.foldlM_nil, pure, Except.pure] at hfold
    cases hfold
    exact h
  | cons e rest ih =>
    intro st st' hfold h
    rw [List.foldlM_cons] at hfold
    rcases hstep : backfillStep ctx req tp st e with err | st1
    · rw [hstep] at hfold
      cases hfold
    · rw [hstep] at hfold
      have hfold' : List.foldlM (backfillStep ctx req tp) st1 rest = Except.ok st' := hfold
      exact ih st1 st' hfold' (backfillStep_dedup hstep h)

/-- Claim C4 (amended): the dedup key is the stripped lower-cased text
(without whitespace collapsing), and across the reconciliation pass and the
DB backfill no two selected questions share that key. -/
theorem claim_C4_dedup_amended (ctx : Ctx) (req : GenRequest) (tp : Bool)
    (draftQs : List DraftQ) (qs : List WQ)
    (hok : backfillPhase ctx req tp (selectPhase ctx req tp draftQs) = Except.ok qs) :
    qs.Pairwise (fun a b => tKey a ≠ tKey b) := by
  unfold backfillPhase at hok
  split at hok
  · cases hok
  · rename_i st' hfold
    simp only [Except.ok.injEq] at hok
    subst hok
    refine (backfill_fold_dedup req.qdist _ st' hfold ⟨?_, ?_⟩).2
    · intro q hq
      exact List.mem_map.mpr ⟨q, hq, rfl⟩
    · exact selectPhase_pairwise ctx req tp draftQs

/-! ### Provenance of selected questions -/

theorem acceptLoop_src (fetched : List BankQ) (missing added : Int) (qs : List WQ)
    (used : List String) :
    ∀ q ∈ (acceptLoop fetched missing added qs used).1,
      q ∈ qs ∨ q.source = some "Database" := by
  induction fetched generalizing added qs used with
  | nil => exact fun q hq => Or.inl hq
  | cons b rest ih =>
    simp only [acceptLoop]
    split
    · exact fun q hq => Or.inl hq
    · split
      · exact ih added qs used
      · intro q hq
        rcases ih _ _ _ q hq with hq' | hq'
        · rcases List.mem_append.mp hq' with h | h
          · exact Or.inl h
          · rw [List.mem_singleton] at h
            subst h
            exact Or.inr rfl
        · exact Or.inr hq'

theorem backfillStep_src {ctx : Ctx} {req : GenRequest} {tp : Bool}
    {st st' : List WQ × List String × Option (BankQ → Bool)} {e : QDistEntry}
    (hstep : backfillStep ctx req tp st e = Except.ok st') :
    ∀ q ∈ st'.1, q ∈ st.1 ∨ q.source = some "Database" := by
  simp only [backfillStep] at hstep
  split at hstep
  · cases hstep
  · split at hstep
    · simp only [Except.ok.injEq] at hstep
      subst hstep
      exact fun q hq => Or.inl hq
    · split at hstep
      · simp only [Except.ok.injEq] at hstep
        subst hstep
        exact fun q hq => Or.inl hq
      · simp only [Except.ok.injEq] at hstep
        subst hstep
        exact acceptLoop_src _ _ 0 st.1 st.2.1

theorem backfill_fold_src {ctx : Ctx} {req : GenRequest} {tp : Bool} :
    ∀ (qdist : List QDistEntry) (st st' : List WQ × List String × Option (BankQ → Bool)),
      List.foldlM (backfillStep ctx req tp) st qdist = Except.ok st' →
      ∀ q ∈ st'.1, q ∈ st.1 ∨ q.source = some "Database" := by
  intro qdist
  induction qdist with
  | nil =>
    intro st st' hfold
    simp only [List.foldlM_nil, pure, Except.pure] at hfold
    cases hfold
    exact fun q hq => Or.inl hq
  | cons e rest ih =>
    intro st st' hfold
    rw [List.foldlM_cons] at hfold
    rcases hstep : backfillStep ctx req tp st e with err | st1
    · rw [hstep] at hfold
      cases hfold
    · rw [hstep] at hfold
      intro q hq
      rcases ih st1 st' hfold q hq with h | h
      · exact backfillStep_src hstep q h
      · exact Or.inr h

theorem backfillPhase_src {ctx : Ctx} {req : GenRequest} {tp : Bool}
    {processed qs : List WQ} (hok : backfillPhase ctx req tp processed = Except.ok qs) :
    ∀ q ∈ qs, q ∈ processed ∨ q.source = some "Database" := by
  unfold backfillPhase at hok
  split at hok
  · cases hok
  · rename_i st' hfold
    simp only [Except.ok.injEq] at hok
    subst hok
    exact backfill_fold_src req.qdist _ st' hfold

theorem sortByTypeOrder_subset {q : WQ} {qs : List WQ}
    (h : q ∈ sortByTypeOrder qs) : q ∈ qs := by
  unfold sortByTypeOrder at h
  rw [List.mem_flatten] at h
  obtain ⟨l, hl, hq⟩ := h
  rw [List.mem_map] at hl
  obtain ⟨i, -, rfl⟩ := hl
  exact (List.mem_filter.mp hq).1

/-- Decomposition of a successful request: the result is an assembly of some
question list whose members come from the AI selection, the DB backfill or
the synthetic fallback. -/
theorem generatePaper_ok_members {ctx : Ctx} {req : GenRequest} {draftQs : List DraftQ}
    {r : PaperResult} (h : generatePaper ctx req draftQs = Except.ok r) :
    ∃ rows qs2, r = assemble rows qs2
      ∧ ∀ q ∈ qs2, q ∈ selectPhase ctx req (topicPresentOf req) draftQs
          ∨ q.source = some "Database"
          ∨ q = basicQuestion req.subject req.class_ req.language := by
  simp only [generatePaper] at h
  split at h
  · split at h
    · cases h
    · rename_i qs1 hfold
      by_cases hlen : ((qs1.length : Int) < totalNeeded req.qdist)
      · rw [if_pos hlen] at h
        simp only [Except.ok.injEq] at h
        subst h
        refine ⟨_, _, rfl, ?_⟩
        intro q hq
        rcases List.mem_append.mp hq with hq' | hq'
        · rcases backfillPhase_src hfold q hq' with h' | h'
          · exact Or.inl h'
          · exact Or.inr (Or.inl h')
        · exact Or.inr (Or.inr (List.mem_replicate.mp hq').2)
      · rw [if_neg hlen] at h
        simp only [Except.ok.injEq] at h
        subst h
        refine ⟨_, _, rfl, ?_⟩
        intro q hq
        rcases backfillPhase_src hfold q hq with h' | h'
        · exact Or.inl h'
        · exact Or.inr (Or.inl h')
  · simp only [Except.ok.injEq] at h
    subst h
    exact ⟨_, _, rfl, fun q hq => Or.inl hq⟩

/-! ### Concrete request fixtures -/

/-- A draft question with the fields the concrete scenarios need. -/
def exDraft (t q : String) (o : Option (List String)) : DraftQ :=
  { type := t, question := q, options := o, marks := 1, difficulty := some "Easy",
    answer := some "A", explanation := some "x" }

/-- An environment with an empty chapter table and bank, identity reordering. -/
def exCtx : Ctx := { chapterRows := [], db := [], rand := id }

/-- A plain request (no topic, no chapters) with the given distribution. -/
def exReq (qdist : List QDistEntry) : GenRequest :=
  { subject := "Math", class_ := "8", board := "CBSE", language := "english",
    topic := "", chapters := [], qdist := qdist }

/-! ### Claims C1, C2, C4, C5, C7 -/

/-- Claim C1 (code bug): with quota MCQ:1 + ShortAnswer:1 and a draft that
supplies exactly the one MCQ, the first backfill bucket has no shortfall, so
the `query` variable is never assigned, and the scope-filter line raises an
unhandled `NameError`: the request fails and no paper with `total_needed`
questions is produced, although the overall selection (1) is below the
requested total (2). -/
theorem claim_C1_total_count_crash :
    generatePaper exCtx (exReq [⟨"MCQ", 1, 1⟩, ⟨"Short Answer", 1, 3⟩])
      [exDraft "MCQ" "q one" (some ["A", "B", "C", "D"])]
      = Except.error PipeErr.nameError := by
  rfl

/-- Claim C2 (counterexample): an MCQ drafted with two options is selected
and persisted with those two options — no padding to four ever happens. -/
theorem claim_C2_counterexample :
    (generatePaper exCtx (exReq [⟨"MCQ", 1, 1⟩])
        [exDraft "MCQ" "q one" (some ["A", "B"])]).toOption.map
      (fun r => (r.questionsSorted.map (fun q => (q.questionType, q.options)),
                 r.paperQuestions.map (fun pq => pq.options))) =
      some ([("MCQ", some ["A", "B"])], [some ["A", "B"]]) := by
  rfl

/-- Claim C2 (amended): the pipeline never post-processes MCQ options — every
AI-sourced question in the composed paper carries exactly the options its
draft supplied, and its persisted `PaperQuestion` row stores them unchanged
(with Python truthiness turning an empty or missing list into `NULL`). -/
theorem claim_C2_options_passthrough (ctx : Ctx) (req : GenRequest)
    (draftQs : List DraftQ) (r : PaperResult)
    (h : generatePaper ctx req draftQs = Except.ok r)
    (q : WQ) (hq : q ∈ r.questionsSorted) (hsrc : q.source = some "AI") :
    ∃ d ∈ draftQs, q.options = d.options
      ∧ (mkPQ q).options = truthyOptions d.options := by
  obtain ⟨rows, qs2, rfl, hmem⟩ := generatePaper_ok_members h
  have hq2 : q ∈ qs2 := sortByTypeOrder_subset hq
  rcases hmem q hq2 with hsel | hdb | hbasic
  · obtain ⟨q0, hq0, aid, rfl⟩ := selectPhase_mem hsel
    obtain ⟨hc, -⟩ := reconcile_mem hq0
    obtain ⟨d, hd, rfl⟩ := List.mem_map.mp hc
    exact ⟨d, hd, rfl, rfl⟩
  · rw [hdb] at hsrc
    exact absurd hsrc (by decide)
  · subst hbasic
    simp [basicQuestion] at hsrc

/-- Witness for the amended claim C2 at a concrete request. -/
theorem claim_C2_witness :
    ∃ d ∈ [exDraft "MCQ" "q one" (some ["A", "B"])],
      (processAI none (aiWQ (exDraft "MCQ" "q one" (some ["A", "B"])))).options = d.options
      ∧ (mkPQ (processAI none (aiWQ (exDraft "MCQ" "q one" (some ["A", "B"]))))).options
          = truthyOptions d.options :=
  claim_C2_options_passthrough exCtx (exReq [⟨"MCQ", 1, 1⟩])
    [exDraft "MCQ" "q one" (some ["A", "B"])]
    (assemble [] [processAI none (aiWQ (exDraft "MCQ" "q one" (some ["A", "B"])))])
    (by rfl)
    (processAI none (aiWQ (exDraft "MCQ" "q one" (some ["A", "B"]))))
    (by decide) (by rfl)

/-- Modelled from the spec: the whitespace collapse of the claim's dedup key
"trim, lowercase, collapse whitespace" (runs of whitespace become one space).
This follows the spec's words, to be compared with the code's `normKey`. -/
def collapseWSGo (prevWS : Bool) : List Char → List Char
  | [] => []
  | c :: rest =>
    if c.isWhitespace then
      (if prevWS then [] else [' ']) ++ collapseWSGo true rest
    else c :: collapseWSGo false rest

/-- Modelled from the spec: the claim's normalization "trim, lowercase,
collapse whitespace". -/
def specNormalizeText (s : String) : String :=
  String.mk (collapseWSGo false (pyStripL (s.toList.map Char.toLower)))

/-- Claim C4 (counterexample): two MCQ candidates whose texts differ only in
internal whitespace have the same claim-normalized key, yet both are
selected — the code's key does not collapse whitespace. -/
theorem claim_C4_counterexample :
    specNormalizeText "a  b" = specNormalizeText "a b"
    ∧ (aiWQ (exDraft "MCQ" "a  b" none)) ∈
        (reconcile [aiWQ (exDraft "MCQ" "a  b" none), aiWQ (exDraft "MCQ" "a b" none)]
          [⟨"MCQ", 2, 1⟩] []).1
    ∧ (aiWQ (exDraft "MCQ" "a b" none)) ∈
        (reconcile [aiWQ (exDraft "MCQ" "a  b" none), aiWQ (exDraft "MCQ" "a b" none)]
          [⟨"MCQ", 2, 1⟩] []).1 := by
  exact ⟨rfl, by decide, by decide⟩

/-- Witness for the amended claim C4 at a concrete request whose backfill
succeeds (one bucket with a shortfall, empty bank). -/
theorem claim_C4_witness :
    (selectPhase exCtx (exReq [⟨"MCQ", 2, 1⟩]) false
        [exDraft "MCQ" "q one" (some ["A", "B", "C", "D"])]).Pairwise
      (fun a b => tKey a ≠ tKey b) :=
  claim_C4_dedup_amended exCtx (exReq [⟨"MCQ", 2, 1⟩]) false
    [exDraft "MCQ" "q one" (some ["A", "B", "C", "D"])] _ (by rfl)

/-- Claim C5 (counterexample): a distribution with a negative count is not
rejected — the request completes and produces (and persists) a paper. -/
theorem claim_C5_counterexample :
    (generatePaper exCtx (exReq [⟨"MCQ", -1, 1⟩]) []).toOption.map
      (fun r => (r.totalQuestions, r.paperQuestions.length)) = some (0, 0) := by
  rfl

/-- Claim C5 (amended): there is no quota validation anywhere in the request
path; a non-positive requested count simply makes the bucket select nothing
(the loop breaks before its first candidate), and the request proceeds. -/
theorem claim_C5_no_validation (cands : List WQ) (n : Int) (u : List String)
    (hn : n ≤ 0) : bucketPick cands n 0 u = ([], u) := by
  cases cands with
  | nil => rfl
  | cons q rest =>
    simp only [bucketPick, if_pos hn]

/-- Witness for the amended claim C5 at a concrete negative count. -/
theorem claim_C5_witness :
    bucketPick [aiWQ (exDraft "MCQ" "q one" none)] (-1) 0 [] = ([], []) :=
  claim_C5_no_validation [aiWQ (exDraft "MCQ" "q one" none)] (-1) [] (by decide)

/-- The chapter row and bank row of the claim C7 scenario: the chapter title
matches the request (so the unscoped chapter-id lookup finds it) but its
board/class/subject do not (so no AI question insert interferes). -/
def c7Row : ChapterRow :=
  { chapterId := 5, titleEn := "Ch1", subjectName := "Other", classNumber := "9",
    boardName := "B2" }

/-- A bank question that satisfies every filter of the claimed chapter-scoped
backfill query (type MCQ, marks 1, english, chapter 5). -/
def c7Bank : BankQ :=
  { id := 11, chapterId := 5, questionType := "MCQ", difficulty := some "Easy", marks := 1,
    questionText := "bank question", options := ["w", "x", "y", "z"], answer := some "A",
    explanation := some "", language := "english", boardName := "B2", classNumber := "9",
    subjectName := "Other", chapterTitle := "Ch1" }

def c7Ctx : Ctx := { chapterRows := [c7Row], db := [c7Bank], rand := id }

def c7Req : GenRequest :=
  { subject := "Math", class_ := "8", board := "CBSE", language := "english",
    topic := "", chapters := ["Ch1"], qdist := [⟨"MCQ", 2, 1⟩] }

/-- Claim C7 (code bug): with a chapter scope, an MCQ shortfall of one, and a
bank question matching every claimed filter, the backfill never adds a bank
question — the fetch only exists in the subject/class branch — and the gap is
filled by a synthetic fallback question instead. The second conjunct shows
the bank did contain exactly one question satisfying the chapter-scoped
query the claim describes. -/
theorem claim_C7_chapter_scope_never_fetches :
    ((generatePaper c7Ctx c7Req [exDraft "MCQ" "q one" (some ["A", "B", "C", "D"])]).toOption.map
      (fun r => (r.totalQuestions, r.questionsSorted.map (fun q => q.source))) =
      some (2, [some "AI", some "Fallback"]))
    ∧ (c7Ctx.db.filter (scopeChapters (chapterIds c7Ctx c7Req.chapters)
        (baseQuery "MCQ" 1 "english"))).length = 1 := by
  exact ⟨rfl, rfl⟩

/-! ### Claim C6: the draft parser chain -/

/-- Claim C6: the parser first attempts the direct parse of the (already
stripped) model text; on failure it searches for a JSON-labeled fenced block
and parses its contents; when both fail it signals the malformed-draft error;
and the enclosing handler recovers from that error by continuing with an
empty candidate list instead of aborting. -/
theorem claim_C6_parser_chain (jsonLoads : String → Option (List DraftQ))
    (rawText : String) :
    (∀ qs, jsonLoads rawText = some qs →
        parseDraftChain jsonLoads rawText = Except.ok qs)
    ∧ (jsonLoads rawText = none → ∀ inner, extractFenced rawText = some inner →
        parseDraftChain jsonLoads rawText =
          (match jsonLoads inner with
           | some qs => Except.ok qs
           | none => Except.error ()))
    ∧ (jsonLoads rawText = none → extractFenced rawText = none →
        parseDraftChain jsonLoads rawText = Except.error ())
    ∧ (parseDraftChain jsonLoads rawText = Except.error () →
        draftOrEmpty jsonLoads rawText = []) := by
  refine ⟨?_, ?_, ?_, ?_⟩
  · intro qs h
    simp [parseDraftChain, h]
  · intro h inner hf
    simp [parseDraftChain, h, hf]
  · intro h hf
    simp [parseDraftChain, h, hf]
  · intro h
    simp [draftOrEmpty, h]

/-- Witness for claim C6: a text with no JSON and no fenced block fails both
attempts and recovers as the empty candidate list. -/
theorem claim_C6_witness :
    parseDraftChain (fun _ => none) "no json here" = Except.error ()
    ∧ draftOrEmpty (fun _ => none) "no json here" = [] := by
  have h := claim_C6_parser_chain (fun _ => none) "no json here"
  have herr := h.2.2.1 rfl (by rfl)
  exact ⟨herr, h.2.2.2 herr⟩

/-! ### Claim C9: export purity -/

/-- Claim C9: each download route is a pure function of the snapshot store's
entry at the requested paper id. Repeating a download, or downloading against
any other store state that holds the same snapshot for that id (the live
database may have changed arbitrarily), produces identical Word and
answer-key document content. -/
theorem claim_C9_idempotent_export (store1 store2 : String → Option Snapshot)
    (pid : String) (h : store1 pid = store2 pid) :
    downloadWord store1 pid = downloadWord store2 pid
    ∧ downloadAnswerKey store1 pid = downloadAnswerKey store2 pid := by
  unfold downloadWord downloadAnswerKey
  rw [h]
  exact ⟨rfl, rfl⟩

/-- A concrete snapshot for the export witness. -/
def exSnap : Snapshot :=
  { paperId := "p2", examName := some "Half Yearly", schoolName := some "S",
    schoolBoard := some "CBSE", className := some "8", subject := some "Math",
    questions := [], summaryTotalQuestions := 0, summaryTotalMarks := 0 }

/-- Witness for claim C9: two stores that agree at the requested id (and
differ elsewhere) yield the same exports. -/
theorem claim_C9_witness :
    downloadWord (fun _ => none) "p1"
      = downloadWord (fun pid => if pid = "p2" then some exSnap else none) "p1"
    ∧ downloadAnswerKey (fun _ => none) "p1"
      = downloadAnswerKey (fun pid => if pid = "p2" then some exSnap else none) "p1" :=
  claim_C9_idempotent_export (fun _ => none)
    (fun pid => if pid = "p2" then some exSnap else none) "p1" (by decide)

/-! ### Ordering lemmas for the composed paper -/

/-- The canonical type order of the specification's six section types. -/
def canonOrderList : List String :=
  ["MCQ", "Fill in the Blanks", "Short Answer", "Long Answer", "Matching", "Case Study"]

/-- The canonical-section rank of a question: position of its normalized
display type in the fixed canonical order, six (last) when unrecognized. -/
def canonRank (q : WQ) : Nat :=
  canonOrderList.indexOf (normalizeQtype (displayType q))

/-- The canonical bucket of a position in `type_order` (positions 0–1 are the
MCQ synonyms, 2–3 the fill-in synonyms, and so on; 13 is the unknown case). -/
def bucketOfIndex (n : Nat) : Nat :=
  if n ≤ 1 then 0 else if n ≤ 3 then 1 else if n ≤ 5 then 2
  else if n ≤ 7 then 3 else if n ≤ 10 then 4 else if n ≤ 12 then 5 else 6

theorem bucketOfIndex_mono {m n : Nat} (h : m ≤ n) :
    bucketOfIndex m ≤ bucketOfIndex n := by
  unfold bucketOfIndex
  split_ifs <;> omega

/-- Positions in `type_order` and the normalizer agree: the canonical bucket
of a label's `type_order` position is its rank in the canonical order (every
synonym group occupies a contiguous run of `type_order`, and a label outside
`type_order` is exactly a label the normalizer passes through unrecognized). -/
theorem bucket_coherence (t : String) :
    bucketOfIndex (typeOrderList.indexOf t) = canonOrderList.indexOf (normalizeTrimmed t) := by
  by_cases h : t ∈ typeOrderList
  · simp only [typeOrderList, List.mem_cons, List.not_mem_nil, or_false] at h
    rcases h with rfl|rfl|rfl|rfl|rfl|rfl|rfl|rfl|rfl|rfl|rfl|rfl|rfl <;> decide
  · have hidx : typeOrderList.indexOf t = typeOrderList.length :=
      List.indexOf_eq_length.mpr h
    simp only [typeOrderList, List.mem_cons, List.not_mem_nil, or_false, not_or] at h
    obtain ⟨h1, h2, h3, h4, h5, h6, h7, h8, h9, h10, h11, h12, h13⟩ := h
    have hnt : normalizeTrimmed t = t := by
      unfold normalizeTrimmed
      simp [h1, h2, h3, h4, h5, h6, h7, h8, h9, h10, h11, h12, h13]
    have hnc : t ∉ canonOrderList := by
      simp [canonOrderList, h1, h3, h5, h7, h9, h12]
    rw [hidx, hnt, List.indexOf_eq_length.mpr hnc]
    decide

theorem canonRank_eq_bucket (q : WQ) :
    bucketOfIndex (getTypeOrder q) = canonRank q := by
  unfold getTypeOrder canonRank normalizeQtype
  exact bucket_coherence (pyStrip (displayType q))

theorem getTypeOrder_lt (q : WQ) : getTypeOrder q < typeOrderList.length + 1 := by
  have h := @List.indexOf_le_length String _ (pyStrip (displayType q)) typeOrderList
  unfold getTypeOrder
  omega

/-- The sorted sequence is grouped by canonical rank: any earlier question's
rank is at most any later one's. -/
theorem sortByTypeOrder_pairwise (qs : List WQ) :
    (sortByTypeOrder qs).Pairwise (fun a b => canonRank a ≤ canonRank b) := by
  unfold sortByTypeOrder
  rw [List.pairwise_flatten]
  constructor
  · intro l hl
    rw [List.mem_map] at hl
    obtain ⟨i, -, rfl⟩ := hl
    apply List.pairwise_of_forall_mem_list
    intro a ha b hb
    have ha' := (List.mem_filter.mp ha).2
    have hb' := (List.mem_filter.mp hb).2
    simp only [decide_eq_true_eq] at ha' hb'
    rw [← canonRank_eq_bucket a, ← canonRank_eq_bucket b, ha', hb']
  · rw [List.pairwise_map]
    apply List.Pairwise.imp ?_ (List.pairwise_lt_range _)
    intro i j hij x hx y hy
    have hx' := (List.mem_filter.mp hx).2
    have hy' := (List.mem_filter.mp hy).2
    simp only [decide_eq_true_eq] at hx' hy'
    rw [← canonRank_eq_bucket x, ← canonRank_eq_bucket y, hx', hy']
    exact bucketOfIndex_mono (Nat.le_of_lt hij)

/-- The continuous PDF counter: the numbers attached from `n` are exactly
`n, n+1, …`. -/
theorem numberFrom_fst (n : Nat) (l : List WQ) :
    (numberFrom n l).map Prod.fst = List.range' n l.length := by
  induction l generalizing n with
  | nil => rfl
  | cons q rest ih =>
    simp only [numberFrom, List.map_cons, List.length_cons, List.range'_succ]
    rw [ih]

/-- Claim C8: in every composed paper, the snapshot/response question order
is grouped by canonical type in the fixed order (MultipleChoice, FillInBlank,
ShortAnswer, LongAnswer, Matching, CaseStudy, unrecognized last), and the
rendered question numbers are 1-based and increase by exactly one across the
whole sequence, never resetting between sections. -/
theorem claim_C8_ordering_and_numbering (ctx : Ctx) (req : GenRequest)
    (draftQs : List DraftQ) (r : PaperResult)
    (h : generatePaper ctx req draftQs = Except.ok r) :
    r.questionsSorted.Pairwise (fun a b => canonRank a ≤ canonRank b)
    ∧ r.renderedSeq.map Prod.fst
        = List.range' 1 ((sectionLists r.questionsSorted).flatten).length := by
  obtain ⟨rows, qs2, rfl, -⟩ := generatePaper_ok_members h
  exact ⟨sortByTypeOrder_pairwise qs2, numberFrom_fst 1 _⟩

/-- Witness for claim C8 at a concrete successful request. -/
theorem claim_C8_witness :
    (assemble [] [processAI none (aiWQ (exDraft "MCQ" "q one" (some ["A", "B", "C", "D"])))]).questionsSorted.Pairwise
      (fun a b => canonRank a ≤ canonRank b)
    ∧ (assemble [] [processAI none (aiWQ (exDraft "MCQ" "q one" (some ["A", "B", "C", "D"])))]).renderedSeq.map Prod.fst
        = List.range' 1 ((sectionLists (assemble [] [processAI none (aiWQ (exDraft "MCQ" "q one" (some ["A", "B", "C", "D"])))]).questionsSorted).flatten).length :=
  claim_C8_ordering_and_numbering exCtx (exReq [⟨"MCQ", 1, 1⟩])
    [exDraft "MCQ" "q one" (some ["A", "B", "C", "D"])] _ (by rfl)

/-! ### Permutation facts and claim C10 -/

theorem flatten_map_append_perm {α β : Type} (c f : α → List β) (is : List α) :
    ((is.map (fun i => c i ++ f i)).flatten).Perm
      ((is.map c).flatten ++ (is.map f).flatten) := by
  induction is with
  | nil => simp
  | cons i rest ih =>
    simp only [List.map_cons, List.flatten_cons]
    refine List.Perm.trans (List.Perm.append_left _ ih) ?_
    have h1 : (f i ++ ((rest.map c).flatten ++ (rest.map f).flatten)).Perm
        ((rest.map c).flatten ++ (f i ++ (rest.map f).flatten)) := by
      rw [← List.append_assoc, ← List.append_assoc]
      exact List.Perm.append_right _ List.perm_append_comm
    rw [List.append_assoc, List.append_assoc]
    exact List.Perm.append_left _ h1

theorem flatten_singleton_bucket {α : Type} (x : α) (k n : Nat) (hk : k < n) :
    (((List.range n).map (fun i => if k = i then [x] else [])).flatten) = [x] := by
  induction n with
  | zero => omega
  | succ m ih =>
    rw [List.range_succ, List.map_append, List.flatten_append]
    by_cases hkm : k < m
    · rw [ih hkm]
      simp [Nat.ne_of_lt hkm]
    · have hk_eq : k = m := by omega
      subst hk_eq
      have hz : ((List.range k).map (fun i => if k = i then [x] else [])).flatten = [] := by
        rw [List.flatten_eq_nil_iff]
        intro l hl
        rw [List.mem_map] at hl
        obtain ⟨i, hi, rfl⟩ := hl
        rw [List.mem_range] at hi
        simp [Nat.ne_of_gt hi]
      rw [hz]
      simp

/-- The bucket sort is a permutation of its input. -/
theorem sortByTypeOrder_perm (qs : List WQ) : (sortByTypeOrder qs).Perm qs := by
  induction qs with
  | nil => simp [sortByTypeOrder]
  | cons q rest ih =>
    unfold sortByTypeOrder at ih ⊢
    have hfc : ((List.range (typeOrderList.length + 1)).map
          (fun i => (q :: rest).filter (fun q' => getTypeOrder q' = i)))
        = ((List.range (typeOrderList.length + 1)).map
          (fun i => (if getTypeOrder q = i then [q] else [])
            ++ rest.filter (fun q' => getTypeOrder q' = i))) := by
      apply List.map_congr_left
      intro i _
      by_cases h : getTypeOrder q = i
      · simp [List.filter_cons, h]
      · simp [List.filter_cons, h]
    rw [hfc]
    refine List.Perm.trans (flatten_map_append_perm _ _ _) ?_
    rw [flatten_singleton_bucket q (getTypeOrder q) _ (getTypeOrder_lt q)]
    exact List.Perm.cons q ih

theorem foldl_marks_sum (l : List WQ) (a : Int) :
    l.foldl (fun acc q => acc + q.marks) a = a + (l.map (fun q => q.marks)).sum := by
  induction l generalizing a with
  | nil => simp
  | cons q rest ih =>
    simp only [List.foldl_cons, List.map_cons, List.sum_cons]
    rw [ih]
    omega

theorem numberFrom_mem {p : Nat × WQ} {n : Nat} {l : List WQ}
    (h : p ∈ numberFrom n l) : p.2 ∈ l := by
  induction l generalizing n with
  | nil => simp [numberFrom] at h
  | cons q rest ih =>
    simp only [numberFrom, List.mem_cons] at h
    rcases h with rfl | h
    · exact List.mem_cons_self _ _
    · exact List.mem_cons_of_mem _ (ih h)

/-- Claim C10: a composed question whose normalized type is not one of the
six section types is silently omitted from the rendered PDF's sections, yet
it is still counted in `totalQuestions`/`totalMarks`, stored in the persisted
snapshot order, and projected into the API response list. -/
theorem claim_C10_unrecognized_dropped_from_pdf (ctx : Ctx) (req : GenRequest)
    (draftQs : List DraftQ) (r : PaperResult)
    (h : generatePaper ctx req draftQs = Except.ok r)
    (q : WQ) (hq : q ∈ r.questionsSorted) (hsec : pdfSectionType q ∉ sectionKeys) :
    (∀ p ∈ r.renderedSeq, p.2 ≠ q)
    ∧ r.totalQuestions = r.questionsSorted.length
    ∧ r.totalMarks = (r.questionsSorted.map (fun q' => q'.marks)).sum
    ∧ respItem q ∈ r.responseQuestions := by
  obtain ⟨rows, qs2, rfl, -⟩ := generatePaper_ok_members h
  refine ⟨?_, ?_, ?_, List.mem_map.mpr ⟨q, hq, rfl⟩⟩
  · intro p hp hcontra
    have hmem := numberFrom_mem hp
    rw [hcontra] at hmem
    rw [List.mem_flatten] at hmem
    obtain ⟨l, hl, hql⟩ := hmem
    unfold sectionLists at hl
    rw [List.mem_map] at hl
    obtain ⟨k, hk, rfl⟩ := hl
    have := (List.mem_filter.mp hql).2
    simp only [decide_eq_true_eq] at this
    exact hsec (this ▸ hk)
  · exact ((sortByTypeOrder_perm qs2).length_eq).symm
  · show qs2.foldl (fun acc q' => acc + q'.marks) 0
        = ((sortByTypeOrder qs2).map (fun q' => q'.marks)).sum
    rw [foldl_marks_sum]
    have hperm := ((sortByTypeOrder_perm qs2).map (fun q' => q'.marks)).sum_eq
    omega

/-- Witness for claim C10: a request whose quota names the unrecognized label
"Essay" selects the drafted essay question; it is absent from the PDF
sections but present in the totals, the snapshot and the response. -/
theorem claim_C10_witness :
    (∀ p ∈ (assemble [] [processAI none (aiWQ (exDraft "Essay" "essay q" none))]).renderedSeq,
        p.2 ≠ processAI none (aiWQ (exDraft "Essay" "essay q" none)))
    ∧ (assemble [] [processAI none (aiWQ (exDraft "Essay" "essay q" none))]).totalQuestions
        = (assemble [] [processAI none (aiWQ (exDraft "Essay" "essay q" none))]).questionsSorted.length
    ∧ (assemble [] [processAI none (aiWQ (exDraft "Essay" "essay q" none))]).totalMarks
        = ((assemble [] [processAI none (aiWQ (exDraft "Essay" "essay q" none))]).questionsSorted.map
            (fun q' => q'.marks)).sum
    ∧ respItem (processAI none (aiWQ (exDraft "Essay" "essay q" none)))
        ∈ (assemble [] [processAI none (aiWQ (exDraft "Essay" "essay q" none))]).responseQuestions :=
  claim_C10_unrecognized_dropped_from_pdf exCtx (exReq [⟨"Essay", 1, 5⟩])
    [exDraft "Essay" "essay q" none] _ (by rfl)
    (processAI none (aiWQ (exDraft "Essay" "essay q" none))) (by decide) (by decide)

end QPGen
